import Mathlib

/-!
Verification of the grcorsair/mappings index validator.

This file embeds the two source programs of the repository:

* scripts/validate-index.ts - the index validator (the core logic), and
* scripts/validate-pack.sh  - the thin CLI wrapper around the external
  pack content validator.

The embedding follows the TypeScript source line by line.  JSON values
parsed from the input file are modelled by the inductive type Json;
JavaScript runtime behaviours that the validator observes are modelled
from the ECMAScript and WHATWG specifications (string coercion, typeof,
URL parsing, Date parsing of ISO strings), with the following documented
simplifications, none of which any claim exercises:

* JSON numbers are modelled as integers (no claim involves fractional
  numbers or number formatting);
* String.prototype.trim is modelled over the character list with the
  common ECMAScript whitespace set (see jsWhitespace);
* the WHATWG URL parser is modelled to scheme extraction plus a
  non-empty host requirement for the https scheme (no claim evaluates
  the URL check at a concrete URL).

JavaScript string coercion of objects can throw a TypeError (an object
whose own property named toString is a non-callable JSON value makes
ToPrimitive throw), so the coercion is modelled as returning Option
String, and a validation run is modelled as Except VState (result):
Except.error st models the process dying on an uncaught exception after
having printed st.msgs to the error stream.
-/

namespace Mappings

/-- JSON values as produced by JSON.parse, with numbers restricted to
integers.  Object fields are kept in document order; duplicate keys are
resolved last-wins by the lookup function, as JSON.parse does. -/
inductive Json where
  | null : Json
  | bool : Bool → Json
  | num : Int → Json
  | str : String → Json
  | arr : List Json → Json
  | obj : List (String × Json) → Json

/-- Property lookup on a parsed JSON object: JSON.parse resolves
duplicate keys last-wins, so the lookup prefers the rightmost match. -/
def lookupField : List (String × Json) → String → Option Json
  | [], _ => none
  | (k, v) :: rest, key =>
    match lookupField rest key with
    | some r => some r
    | none => if k == key then some v else none

/-- Model of JavaScript property access record[key] for the field names
the validator reads.  Only genuine objects have these properties; on
arrays and primitives every field name the validator uses (id, tool,
version, description, signer, frameworks, mappingIds, packUrl,
publicKeyUrl, sha256, source, createdAt) is absent (none = undefined).
None of these names collides with an Object.prototype property. -/
def getField : Json → String → Option Json
  | .obj fs, key => lookupField fs key
  | _, _ => none

/-- Model of the guard on line 61 of validate-index.ts:
entry && typeof entry === "object".  In JavaScript, typeof is "object"
for null, arrays and objects; null is excluded by the truthiness test,
so exactly objects and arrays pass. -/
def passesObjectCheck : Json → Bool
  | .obj _ => true
  | .arr _ => true
  | _ => false

mutual
/-- Model of ECMAScript ToString on a parsed JSON value, as used by the
template literal on line 102 and String() on line 94 of
validate-index.ts.  An object is coerced via OrdinaryToPrimitive: an own
property named toString (always a non-callable JSON value) shadows
Object.prototype.toString, and valueOf then fails to produce a
primitive, so ToPrimitive throws a TypeError - modelled as none.
Arrays are coerced via Array.prototype.join with separator ",", where
null elements contribute the empty string. -/
def jsToString : Json → Option String
  | .null => some "null"
  | .bool true => some "true"
  | .bool false => some "false"
  | .num n => some (toString n)
  | .str s => some s
  | .arr es => jsJoin es
  | .obj fs =>
    match lookupField fs "toString" with
    | some _ => none
    | none => some "[object Object]"

/-- Model of Array.prototype.join "," over parsed JSON elements:
null elements contribute the empty string, other elements are coerced
with ToString; a throwing element coercion aborts the join. -/
def jsJoin : List Json → Option String
  | [] => some ""
  | e :: rest => do
    let a ← match e with
      | Json.null => some ""
      | j => jsToString j
    match rest with
    | [] => some a
    | _ => do
      let b ← jsJoin rest
      some (a ++ "," ++ b)
end

/-- Coercion of a possibly-absent field value, as the template literal
on line 102 does: an absent property (undefined) coerces to the string
undefined; a present value is coerced with ToString and may throw. -/
def jsFieldToString : Option Json → Option String
  | none => some "undefined"
  | some j => jsToString j

/-- Characters removed by String.prototype.trim: the ECMAScript
WhiteSpace set (tab, vertical tab, form feed, space, no-break space,
byte-order mark) and the LineTerminator set (line feed, carriage
return; the two astral separators and the other category-Zs spaces are
omitted from the model, no claim involves them). -/
def jsWhitespace (c : Char) : Bool :=
  c == ' ' || c == '\t' || c == '\n' || c == '\r' ||
  c == '\x0b' || c == '\x0c' || c == '\u00A0' || c == '\uFEFF'

/-- Model of value.trim() on the character list of the string. -/
def jsTrim (cs : List Char) : List Char :=
  ((cs.dropWhile jsWhitespace).reverse.dropWhile jsWhitespace).reverse

/-- Model of isNonEmptyString (lines 13-15):
typeof value === "string" && value.trim().length > 0. -/
def isNonEmptyString : Option Json → Bool
  | some (Json.str s) => decide (0 < (jsTrim s.data).length)
  | _ => false

/-- Hexadecimal digit as matched by the character class [a-fA-F0-9]. -/
def jsHexDigit (c : Char) : Bool :=
  c.isDigit || ('a' ≤ c && c ≤ 'f') || ('A' ≤ c && c ≤ 'F')

/-- Model of isSha256 (lines 27-29): a non-empty string matching the
anchored regular expression of exactly 64 hexadecimal characters. -/
def isSha256 (v : Option Json) : Bool :=
  isNonEmptyString v &&
    match v with
    | some (Json.str s) => decide (s.length = 64) && s.data.all jsHexDigit
    | _ => false

/-- Gregorian leap-year rule, as used by ECMAScript time computations. -/
def isLeapYear (y : Nat) : Bool :=
  (y % 4 == 0 && y % 100 != 0) || y % 400 == 0

/-- Number of days of a month (1-12) in year y. -/
def daysInMonth (y m : Nat) : Nat :=
  if m == 2 then (if isLeapYear y then 29 else 28)
  else if m == 4 || m == 6 || m == 9 || m == 11 then 30
  else 31

/-- Shape test of the regular expression on line 33 of
validate-index.ts: four digits, hyphen, two digits, hyphen, two digits,
anchored at both ends. -/
def isoShape (s : String) : Bool :=
  match s.data with
  | [y1, y2, y3, y4, h1, m1, m2, h2, d1, d2] =>
    y1.isDigit && y2.isDigit && y3.isDigit && y4.isDigit &&
    h1 == '-' && m1.isDigit && m2.isDigit && h2 == '-' &&
    d1.isDigit && d2.isDigit
  | _ => false

/-- Numeric value of a decimal digit character. -/
def digitVal (c : Char) : Nat := c.toNat - '0'.toNat

/-- Model of new Date(value + "T00:00:00Z") not being NaN, for a value
that already matches the shape regular expression: per the ECMAScript
Date Time String Format, out-of-bounds components (month outside 01-12,
day outside the month's length) make the time value NaN. -/
def isoConstructible (s : String) : Bool :=
  match s.data with
  | [y1, y2, y3, y4, _, m1, m2, _, d1, d2] =>
    let y := ((digitVal y1 * 10 + digitVal y2) * 10 + digitVal y3) * 10 + digitVal y4
    let m := digitVal m1 * 10 + digitVal m2
    let d := digitVal d1 * 10 + digitVal d2
    decide (1 ≤ m) && decide (m ≤ 12) && decide (1 ≤ d) && decide (d ≤ daysInMonth y m)
  | _ => false

/-- Model of isIsoDate (lines 31-36): non-empty string, shape regular
expression, and the resulting calendar date is constructible. -/
def isIsoDate (v : Option Json) : Bool :=
  isNonEmptyString v &&
    match v with
    | some (Json.str s) => isoShape s && isoConstructible s
    | _ => false

/-- Model of assertArrayOfStrings (lines 38-40): an array, non-empty,
whose every element is a non-empty string. -/
def assertArrayOfStrings (v : Option Json) : Bool :=
  match v with
  | some (Json.arr es) =>
    decide (0 < es.length) && es.all (fun e => isNonEmptyString (some e))
  | _ => false

/-- Characters allowed after the first character of a URL scheme. -/
def schemeChar (c : Char) : Bool :=
  c.isAlphanum || c == '+' || c == '-' || c == '.'

/-- Scheme splitter for the WHATWG URL parser model: consumes scheme
characters up to a colon, returning the scheme and the remainder. -/
def splitScheme : List Char → Option (List Char × List Char)
  | [] => none
  | c :: cs =>
    if c == ':' then some ([], cs)
    else if schemeChar c then
      match splitScheme cs with
      | some (sch, rest) => some (c :: sch, rest)
      | none => none
    else none

/-- Model of isHttpsUrl (lines 17-25): new URL(value) inside try/catch,
then url.protocol === "https:".  The WHATWG URL constructor first
removes tabs and newlines and strips leading and trailing C0 controls
and spaces, then parses an ASCII-alpha-initial scheme up to a colon.
The result can only be the https protocol when the lowercased scheme is
https, in which case the URL is valid exactly when a non-empty host
follows (after optional slashes); for every other scheme the protocol
comparison fails regardless of validity, so deeper host validation is
not modelled. -/
def isHttpsUrl (v : Option Json) : Bool :=
  if !(isNonEmptyString v) then false
  else
    match v with
    | some (Json.str s) =>
      let cs := s.data.filter fun c => !(c == '\t' || c == '\n' || c == '\r')
      let cs := cs.dropWhile fun c => c ≤ ' '
      let cs := (cs.reverse.dropWhile fun c => c ≤ ' ').reverse
      match cs with
      | [] => false
      | c :: rest =>
        c.isAlpha &&
          match splitScheme (c :: rest) with
          | some (sch, after) =>
            (String.mk (sch.map Char.toLower) == "https") &&
              (let afterSlashes := after.dropWhile fun a => a == '/' || a == '\\'
               let host := afterSlashes.takeWhile fun a =>
                 !(a == '/' || a == '?' || a == '#')
               decide (host ≠ []))
          | none => false
    | _ => false

/-- The closed set of allowed source values (line 57). -/
def allowedSources : List String := ["vendor", "community", "internal"]

/-- The five required plain-string fields, in source order (line 67). -/
def requiredStrings : List String :=
  ["id", "tool", "version", "description", "signer"]

/-- State of one validation run: the global duplicate-identity set
(line 56) and the violation messages printed so far via fail
(lines 8-11), in print order. -/
@[ext]
structure VState where
  seen : List String
  msgs : List String
deriving DecidableEq

/-- Model of fail (lines 8-11): print the message to the error stream
(append it to the transcript) and set the failure indicator (derived
here as non-emptiness of the transcript). -/
def fail (message : String) (st : VState) : VState :=
  { st with msgs := st.msgs ++ [message] }

/-- One guarded check of the entry loop: if the condition does not
hold, fail with the given message. -/
def check (ok : Bool) (message : String) (st : VState) : VState :=
  if !ok then fail message st else st

/-- Position tag of the entry at index i in every violation message. -/
def entryLabel (i : Nat) : String := "index.json[" ++ toString i ++ "]"

/-- Model of the body of the entry loop (lines 59-107) for the entry at
index i.  Except.error st models the run dying on an uncaught TypeError
from a throwing string coercion (source on line 94, or id and version
on line 102) after having printed st.msgs; the evaluation order of the
template literal (id coerced before version) is observably equivalent
to matching on both coercions at once, since a failed coercion has no
effect other than the throw. -/
def validateEntry (i : Nat) (entry : Json) (st : VState) : Except VState VState :=
  let p := entryLabel i
  if !(passesObjectCheck entry) then
    Except.ok (fail (p ++ " must be an object") st)
  else
    let st := requiredStrings.foldl (fun st key =>
      check (isNonEmptyString (getField entry key))
        (p ++ "." ++ key ++ " must be a non-empty string") st) st
    let st := check (assertArrayOfStrings (getField entry "frameworks"))
      (p ++ ".frameworks must be a non-empty string array") st
    let st := check (assertArrayOfStrings (getField entry "mappingIds"))
      (p ++ ".mappingIds must be a non-empty string array") st
    let st := check (isHttpsUrl (getField entry "packUrl"))
      (p ++ ".packUrl must be an https URL") st
    let st := check (isHttpsUrl (getField entry "publicKeyUrl"))
      (p ++ ".publicKeyUrl must be an https URL") st
    let st := check (isSha256 (getField entry "sha256"))
      (p ++ ".sha256 must be a 64-char hex string") st
    match jsFieldToString (getField entry "source") with
    | none => Except.error st
    | some sourceVal =>
      let st := check (allowedSources.contains sourceVal)
        (p ++ ".source must be one of: vendor, community, internal") st
      let st := check (isIsoDate (getField entry "createdAt"))
        (p ++ ".createdAt must be ISO date YYYY-MM-DD") st
      match jsFieldToString (getField entry "id"),
            jsFieldToString (getField entry "version") with
      | some idVal, some versionVal =>
        let key := idVal ++ "@" ++ versionVal
        let st := check (!(st.seen.contains key))
          (p ++ " duplicates id+version " ++ key) st
        Except.ok { st with seen := key :: st.seen }
      | _, _ => Except.error st

/-- The entry loop from index i onward: sequential, aborted only by an
uncaught exception. -/
def validateFrom (i : Nat) : List Json → VState → Except VState VState
  | [], st => Except.ok st
  | e :: rest, st =>
    match validateEntry i e st with
    | Except.ok st2 => validateFrom (i + 1) rest st2
    | Except.error st2 => Except.error st2

/-- The whole entry loop over the parsed array, starting from the empty
identity set and an empty transcript. -/
def validateIndex (data : List Json) : Except VState VState :=
  validateFrom 0 data ⟨[], []⟩

/-- Observable outcome of a run that terminates normally: the process
exit status, the error-stream lines and the standard-output lines. -/
structure RunResult where
  exitCode : Nat
  stderrMsgs : List String
  stdoutMsgs : List String
deriving DecidableEq

/-- Model of the program from the top-level shape test on (lines
51-54, 109-114), applied to the successfully parsed JSON value: a
non-array input fails fast with the shape message and exit status 1; an
array input runs the entry loop, then exits 1 with the trailing summary
line when any violation was printed, and 0 with the success line
otherwise.  Except.error st models the run dying on an uncaught
exception after printing st.msgs. -/
def runValidator (data : Json) : Except VState RunResult :=
  match data with
  | Json.arr entries =>
    (match validateIndex entries with
     | Except.error st => Except.error st
     | Except.ok st =>
       if st.msgs.isEmpty then
         Except.ok ⟨0, [], ["Index validation passed."]⟩
       else
         Except.ok ⟨1, st.msgs ++ ["Index validation failed."], []⟩)
  | _ => Except.ok ⟨1, ["index.json must be an array of entries"], []⟩

/-- Messages printed to the error stream by a validation loop outcome,
whether it completed or died on an exception. -/
def resMsgs : Except VState VState → List String
  | Except.ok st => st.msgs
  | Except.error st => st.msgs

/-- Identity set of a validation loop outcome. -/
def resSeen : Except VState VState → List String
  | Except.ok st => st.seen
  | Except.error st => st.seen

/-- Whether a run terminated normally (no uncaught exception). -/
def completesNormally : Except VState RunResult → Bool
  | Except.ok _ => true
  | Except.error _ => false

/-- Usage line of scripts/validate-pack.sh. -/
def validatePackUsage : String := "Usage: scripts/validate-pack.sh <pack.json>"

/-- Observable outcome of the wrapper script: exit status and
error-stream lines (the delegated tool's own output is its business). -/
structure ShellResult where
  exitCode : Nat
  stderrLines : List String
deriving DecidableEq

/-- Model of scripts/validate-pack.sh: with no positional argument it
prints the usage line to the error stream and exits 2; otherwise it
runs the external tool (corsair mappings validate --file) on the first
argument as its last command, so its exit status - abstracted by the
function corsairExit - is the script's exit status (also under set -e). -/
def validatePackScript (corsairExit : String → Nat) (args : List String) : ShellResult :=
  match args with
  | [] => ⟨2, [validatePackUsage]⟩
  | a :: _ => ⟨corsairExit a, []⟩

/-! Specification-side definitions, following the words of the spec
(section 4.2 of spec.md): the list of violations of one entry, written
as an explicit concatenation in the documented field-check order, and
the identity set threaded through the entries in document order.  The
refinement theorem for claim C5 proves the imperative loop equal to
these lists. -/

/-- One potential violation: the empty list when the check passed, the
message otherwise. -/
def vio (ok : Bool) (message : String) : List String :=
  if ok then [] else [message]

/-- Total rendering of a field coercion, for use in the
specification-side lists: a throwing coercion is rendered as the empty
string.  All theorems relating this to the running code carry a
hypothesis that rules the throwing case out (the run completed), so the
placeholder is never compared against anything. -/
def coerceOrDefault (v : Option Json) : String :=
  (jsFieldToString v).getD ""

/-- The identity key of an entry: the coerced id, an @ separator, and
the coerced version (line 102 of validate-index.ts). -/
def dupKey (e : Json) : String :=
  coerceOrDefault (getField e "id") ++ "@" ++ coerceOrDefault (getField e "version")

/-- The coerced source value of an entry (line 94). -/
def sourceText (e : Json) : String :=
  coerceOrDefault (getField e "source")

/-- The field-check violations of one object-like entry, in source
order: the five required strings, frameworks, mappingIds, packUrl,
publicKeyUrl, sha256, source, createdAt. -/
def specEntryViolationsCore (i : Nat) (e : Json) : List String :=
  let p := entryLabel i
  (requiredStrings.foldr (fun k acc =>
      vio (isNonEmptyString (getField e k))
        (p ++ "." ++ k ++ " must be a non-empty string") ++ acc) [])
  ++ vio (assertArrayOfStrings (getField e "frameworks"))
      (p ++ ".frameworks must be a non-empty string array")
  ++ vio (assertArrayOfStrings (getField e "mappingIds"))
      (p ++ ".mappingIds must be a non-empty string array")
  ++ vio (isHttpsUrl (getField e "packUrl"))
      (p ++ ".packUrl must be an https URL")
  ++ vio (isHttpsUrl (getField e "publicKeyUrl"))
      (p ++ ".publicKeyUrl must be an https URL")
  ++ vio (isSha256 (getField e "sha256"))
      (p ++ ".sha256 must be a 64-char hex string")
  ++ vio (allowedSources.contains (sourceText e))
      (p ++ ".source must be one of: vendor, community, internal")
  ++ vio (isIsoDate (getField e "createdAt"))
      (p ++ ".createdAt must be ISO date YYYY-MM-DD")

/-- The violation of the duplicate-identity check of one entry against
the identity set accumulated from the earlier entries. -/
def specDupViolation (i : Nat) (e : Json) (seen : List String) : List String :=
  vio (!(seen.contains (dupKey e)))
    (entryLabel i ++ " duplicates id+version " ++ dupKey e)

/-- All violations of one entry, in check order: a single shape
violation for an entry failing the typeof-object test, otherwise the
field checks followed by the duplicate check. -/
def specEntryViolations (i : Nat) (e : Json) (seen : List String) : List String :=
  if passesObjectCheck e then
    specEntryViolationsCore i e ++ specDupViolation i e seen
  else
    [entryLabel i ++ " must be an object"]

/-- How one entry extends the identity set: entries failing the
typeof-object test are skipped, all others record their key. -/
def updSeen (e : Json) (seen : List String) : List String :=
  if passesObjectCheck e then dupKey e :: seen else seen

/-- The identity set after a run over the given entries. -/
def seenAfter : List Json → List String → List String
  | [], seen => seen
  | e :: rest, seen => seenAfter rest (updSeen e seen)

/-- The violations of a run over the given entries starting at index i
with the given identity set, in entry order and, within one entry, in
field-check order. -/
def specViolationsFrom (i : Nat) : List Json → List String → List String
  | [], _ => []
  | e :: rest, seen =>
    specEntryViolations i e seen ++ specViolationsFrom (i + 1) rest (updSeen e seen)

/-- Condition under which the string coercions of one entry cannot
throw: the entry either fails the typeof-object test (and is never
coerced) or its source, id and version values coerce successfully. -/
def entryCoercible (e : Json) : Bool :=
  !(passesObjectCheck e) ||
    ((jsFieldToString (getField e "source")).isSome &&
     (jsFieldToString (getField e "id")).isSome &&
     (jsFieldToString (getField e "version")).isSome)

/-! Helper lemmas. -/

theorem check_seen (ok : Bool) (m : String) (st : VState) :
    (check ok m st).seen = st.seen := by
  cases ok <;> simp [check, fail]

theorem check_msgs (ok : Bool) (m : String) (st : VState) :
    (check ok m st).msgs = st.msgs ++ vio ok m := by
  cases ok <;> simp [check, fail, vio]

theorem foldl_check_seen (keys : List String) (c : String → Bool)
    (m : String → String) (st : VState) :
    (keys.foldl (fun st k => check (c k) (m k) st) st).seen = st.seen := by
  induction keys generalizing st with
  | nil => rfl
  | cons k ks ih => simp [List.foldl_cons, ih, check_seen]

theorem foldl_check_msgs (keys : List String) (c : String → Bool)
    (m : String → String) (st : VState) :
    (keys.foldl (fun st k => check (c k) (m k) st) st).msgs =
      st.msgs ++ keys.foldr (fun k acc => vio (c k) (m k) ++ acc) [] := by
  induction keys generalizing st with
  | nil => simp
  | cons k ks ih => simp [List.foldl_cons, List.foldr_cons, ih, check_msgs]

theorem validateEntry_ok {i : Nat} {e : Json} {st st2 : VState}
    (h : validateEntry i e st = Except.ok st2) :
    st2 = ⟨updSeen e st.seen, st.msgs ++ specEntryViolations i e st.seen⟩ := by
  by_cases hp : passesObjectCheck e
  · rw [validateEntry] at h
    simp only [hp, Bool.not_true, Bool.false_eq_true, if_false] at h
    rcases hsrc : jsFieldToString (getField e "source") with _ | s0 <;> rw [hsrc] at h
    · exact absurd h (by simp)
    · rcases hid : jsFieldToString (getField e "id") with _ | idv <;> rw [hid] at h
      · exact absurd h (by simp)
      · rcases hver : jsFieldToString (getField e "version") with _ | verv <;>
          rw [hver] at h
        · exact absurd h (by simp)
        · simp only [Except.ok.injEq] at h
          subst h
          have hkey : dupKey e = idv ++ "@" ++ verv := by
            simp [dupKey, coerceOrDefault, hid, hver]
          have hsrcv : sourceText e = s0 := by
            simp [sourceText, coerceOrDefault, hsrc]
          refine VState.ext ?_ ?_
          · simp [updSeen, hp, hkey, check_seen, foldl_check_seen]
          · simp [specEntryViolations, specEntryViolationsCore, specDupViolation,
              hp, hkey, hsrcv, check_msgs, check_seen, foldl_check_msgs,
              foldl_check_seen, List.append_assoc]
  · rw [validateEntry] at h
    simp only [hp, Bool.not_false, if_true] at h
    simp only [Except.ok.injEq] at h
    subst h
    refine VState.ext ?_ ?_
    · simp [updSeen, hp, fail]
    · simp [specEntryViolations, hp, fail]

theorem validateEntry_error {i : Nat} {e : Json} {st st2 : VState}
    (h : validateEntry i e st = Except.error st2) :
    ∃ t, st2.msgs = st.msgs ++ t := by
  by_cases hp : passesObjectCheck e
  · rw [validateEntry] at h
    simp only [hp, Bool.not_true, Bool.false_eq_true, if_false] at h
    rcases hsrc : jsFieldToString (getField e "source") with _ | s0 <;> rw [hsrc] at h
    · simp only [Except.error.injEq] at h
      subst h
      simp only [check_msgs, check_seen, foldl_check_msgs, List.append_assoc]
      exact ⟨_, rfl⟩
    · rcases hid : jsFieldToString (getField e "id") with _ | idv <;> rw [hid] at h
      · simp only [Except.error.injEq] at h
        subst h
        simp only [check_msgs, check_seen, foldl_check_msgs, List.append_assoc]
        exact ⟨_, rfl⟩
      · rcases hver : jsFieldToString (getField e "version") with _ | verv <;>
          rw [hver] at h
        · simp only [Except.error.injEq] at h
          subst h
          simp only [check_msgs, check_seen, foldl_check_msgs, List.append_assoc]
          exact ⟨_, rfl⟩
        · exact absurd h (by simp)
  · rw [validateEntry] at h
    simp only [hp, Bool.not_false, if_true] at h
    exact absurd h (by simp)

theorem resMsgs_validateFrom_mono : ∀ (es : List Json) (i : Nat) (st : VState),
    ∃ t, resMsgs (validateFrom i es st) = st.msgs ++ t := by
  intro es
  induction es with
  | nil => exact fun i st => ⟨[], by simp [validateFrom, resMsgs]⟩
  | cons e rest ih =>
    intro i st
    cases hres : validateEntry i e st with
    | ok stx =>
      have hx := validateEntry_ok hres
      subst hx
      obtain ⟨t2, ht2⟩ :=
        ih (i + 1) ⟨updSeen e st.seen, st.msgs ++ specEntryViolations i e st.seen⟩
      refine ⟨specEntryViolations i e st.seen ++ t2, ?_⟩
      simp only [validateFrom, hres]
      rw [ht2]
      simp [List.append_assoc]
    | error stx =>
      obtain ⟨t, ht⟩ := validateEntry_error hres
      exact ⟨t, by simp [validateFrom, hres, resMsgs, ht]⟩

theorem validateFrom_ok : ∀ (es : List Json) (i : Nat) (st st2 : VState),
    validateFrom i es st = Except.ok st2 →
    st2 = ⟨seenAfter es st.seen, st.msgs ++ specViolationsFrom i es st.seen⟩ := by
  intro es
  induction es with
  | nil =>
    intro i st st2 h
    simp only [validateFrom, Except.ok.injEq] at h
    subst h
    refine VState.ext ?_ ?_ <;> simp [seenAfter, specViolationsFrom]
  | cons e rest ih =>
    intro i st st2 h
    rw [validateFrom] at h
    cases hres : validateEntry i e st with
    | error stx => rw [hres] at h; exact absurd h (by simp)
    | ok stx =>
      rw [hres] at h
      have hx := validateEntry_ok hres
      have h2 := ih (i + 1) stx st2 h
      subst hx
      rw [h2]
      refine VState.ext ?_ ?_ <;>
        simp [seenAfter, specViolationsFrom, List.append_assoc]

theorem validateFrom_append_ok : ∀ (xs ys : List Json) (i : Nat) (st st2 : VState),
    validateFrom i xs st = Except.ok st2 →
    validateFrom i (xs ++ ys) st = validateFrom (i + xs.length) ys st2 := by
  intro xs
  induction xs with
  | nil =>
    intro ys i st st2 h
    simp only [validateFrom, Except.ok.injEq] at h
    subst h
    simp [validateFrom]
  | cons x xs ih =>
    intro ys i st st2 h
    rw [validateFrom] at h
    cases hres : validateEntry i x st with
    | error stx => rw [hres] at h; exact absurd h (by simp)
    | ok stx =>
      rw [hres] at h
      rw [List.cons_append, validateFrom, hres]
      have harith : i + (x :: xs).length = i + 1 + xs.length := by
        simp only [List.length_cons]; omega
      rw [harith]
      exact ih ys (i + 1) stx st2 h

theorem validateFrom_append_error : ∀ (xs ys : List Json) (i : Nat) (st st2 : VState),
    validateFrom i xs st = Except.error st2 →
    validateFrom i (xs ++ ys) st = Except.error st2 := by
  intro xs
  induction xs with
  | nil =>
    intro ys i st st2 h
    exact absurd h (by simp [validateFrom])
  | cons x xs ih =>
    intro ys i st st2 h
    rw [validateFrom] at h
    cases hres : validateEntry i x st with
    | error stx =>
      rw [hres] at h
      rw [List.cons_append, validateFrom, hres]
      exact h
    | ok stx =>
      rw [hres] at h
      rw [List.cons_append, validateFrom, hres]
      exact ih ys (i + 1) stx st2 h

theorem specViolationsFrom_append : ∀ (xs ys : List Json) (i : Nat) (seen : List String),
    specViolationsFrom i (xs ++ ys) seen =
      specViolationsFrom i xs seen ++
        specViolationsFrom (i + xs.length) ys (seenAfter xs seen) := by
  intro xs
  induction xs with
  | nil => intro ys i seen; simp [specViolationsFrom, seenAfter]
  | cons x xs ih =>
    intro ys i seen
    rw [List.cons_append, specViolationsFrom, specViolationsFrom, ih]
    rw [List.append_assoc]
    have harith : i + 1 + xs.length = i + (x :: xs).length := by
      simp only [List.length_cons]; omega
    rw [harith]
    rfl

theorem mem_seenAfter_of_mem : ∀ (es : List Json) (seen : List String) (x : String),
    x ∈ seen → x ∈ seenAfter es seen := by
  intro es
  induction es with
  | nil => intro seen x hx; exact hx
  | cons e rest ih =>
    intro seen x hx
    refine ih (updSeen e seen) x ?_
    by_cases hp : passesObjectCheck e <;> simp [updSeen, hp, hx]

theorem dupKey_mem_seenAfter : ∀ (es : List Json) (seen : List String) (e : Json),
    e ∈ es → passesObjectCheck e = true → dupKey e ∈ seenAfter es seen := by
  intro es
  induction es with
  | nil => intro seen e he; exact absurd he (by simp)
  | cons a rest ih =>
    intro seen e he hp
    rcases List.mem_cons.mp he with rfl | hmem
    · refine mem_seenAfter_of_mem rest (updSeen e seen) _ ?_
      simp [updSeen, hp]
    · exact ih (updSeen a seen) e hmem hp

theorem mem_specDupViolation {i : Nat} {e : Json} {seen : List String}
    (hp : passesObjectCheck e = true)
    (hc : dupKey e ∈ seen) :
    (entryLabel i ++ " duplicates id+version " ++ dupKey e) ∈
      specEntryViolations i e seen := by
  simp [specEntryViolations, hp, specDupViolation, hc, vio]

theorem mem_specCreatedAt {i : Nat} {e : Json} {seen : List String}
    (hp : passesObjectCheck e = true)
    (hiso : isIsoDate (getField e "createdAt") = false) :
    (entryLabel i ++ ".createdAt must be ISO date YYYY-MM-DD") ∈
      specEntryViolations i e seen := by
  simp [specEntryViolations, hp, specEntryViolationsCore, hiso, vio]

theorem passes_of_getField {e : Json} {k : String} {v : Json}
    (h : getField e k = some v) : passesObjectCheck e = true := by
  cases e <;> simp_all [getField, passesObjectCheck]

theorem dup_mem_of_matching_keys (xs ys zs : List Json) (e1 e2 : Json) (st : VState)
    (h1 : passesObjectCheck e1 = true) (h2 : passesObjectCheck e2 = true)
    (hkey : dupKey e1 = dupKey e2)
    (hrun : validateIndex (xs ++ e1 :: ys ++ e2 :: zs) = Except.ok st) :
    (entryLabel (xs ++ e1 :: ys).length ++ " duplicates id+version " ++ dupKey e2) ∈
      st.msgs := by
  have hsplit : xs ++ e1 :: ys ++ e2 :: zs = (xs ++ e1 :: ys) ++ e2 :: zs := by
    simp
  rw [validateIndex, hsplit] at hrun
  have h := validateFrom_ok _ _ _ _ hrun
  subst h
  simp only [List.nil_append]
  rw [specViolationsFrom_append, Nat.zero_add]
  refine List.mem_append_right _ ?_
  rw [specViolationsFrom]
  refine List.mem_append_left _ ?_
  have hmem : dupKey e2 ∈ seenAfter (xs ++ e1 :: ys) [] := by
    rw [← hkey]
    exact dupKey_mem_seenAfter _ _ _ (by simp) h1
  exact mem_specDupViolation h2 hmem

theorem validateFrom_ok_of_coercible : ∀ (es : List Json) (i : Nat) (st : VState),
    es.all entryCoercible = true →
    ∃ st2, validateFrom i es st = Except.ok st2 := by
  intro es
  induction es with
  | nil => exact fun i st _ => ⟨st, rfl⟩
  | cons e rest ih =>
    intro i st hall
    rw [List.all_cons, Bool.and_eq_true] at hall
    obtain ⟨he, hrest⟩ := hall
    have hstep : ∃ stx, validateEntry i e st = Except.ok stx := by
      by_cases hp : passesObjectCheck e
      · rw [validateEntry]
        simp only [hp, Bool.not_true, Bool.false_eq_true, if_false]
        simp only [entryCoercible, hp, Bool.not_true, Bool.false_or,
          Bool.and_eq_true] at he
        obtain ⟨⟨hs, hi⟩, hv⟩ := he
        obtain ⟨s0, hsrc⟩ := Option.isSome_iff_exists.mp hs
        obtain ⟨idv, hid⟩ := Option.isSome_iff_exists.mp hi
        obtain ⟨verv, hver⟩ := Option.isSome_iff_exists.mp hv
        rw [hsrc, hid, hver]
        exact ⟨_, rfl⟩
      · rw [validateEntry]
        simp only [hp, Bool.not_false, if_true]
        exact ⟨_, rfl⟩
    obtain ⟨stx, hstx⟩ := hstep
    rw [validateFrom, hstx]
    exact ih (i + 1) stx hrest

theorem runValidator_arr_ok {data : List Json} {r : RunResult}
    (h : runValidator (Json.arr data) = Except.ok r) :
    ∃ st, validateIndex data = Except.ok st ∧
      ((st.msgs = [] ∧ r = ⟨0, [], ["Index validation passed."]⟩) ∨
       (st.msgs ≠ [] ∧ r = ⟨1, st.msgs ++ ["Index validation failed."], []⟩)) := by
  rw [runValidator] at h
  split at h
  · exact absurd h (by simp)
  · rename_i st hv
    split at h
    · rename_i hm
      simp only [Except.ok.injEq] at h
      exact ⟨st, hv, Or.inl ⟨List.isEmpty_iff.mp hm, h.symm⟩⟩
    · rename_i hm
      simp only [Except.ok.injEq] at h
      refine ⟨st, hv, Or.inr ⟨?_, h.symm⟩⟩
      intro hnil
      exact hm (by simp [hnil])

theorem spec_mem_validateIndex {xs zs : List Json} {e : Json} {st : VState} {m : String}
    (hrun : validateIndex (xs ++ e :: zs) = Except.ok st)
    (hm : m ∈ specEntryViolations xs.length e (seenAfter xs [])) :
    m ∈ st.msgs := by
  rw [validateIndex] at hrun
  have h := validateFrom_ok _ _ _ _ hrun
  subst h
  simp only [List.nil_append]
  rw [specViolationsFrom_append, Nat.zero_add]
  refine List.mem_append_right _ ?_
  rw [specViolationsFrom]
  exact List.mem_append_left _ hm

/-! Claim theorems. -/

/-- C1, counterexample: the claim says every non-object entry (null, an
array, or a scalar) gets exactly one must-be-an-object violation and no
further field checks.  An array entry refutes it: in JavaScript, typeof
of an array is the string object and an array is truthy, so the entry
consisting of one empty array passes the guard of line 61, receives
none of the must-be-an-object violations, and instead undergoes every
field check (its id field, being absent, is flagged). -/
theorem arrayEntry_checked_as_object :
    passesObjectCheck (Json.arr []) = true ∧
    ("index.json[0] must be an object" ∉ resMsgs (validateIndex [Json.arr []])) ∧
    ("index.json[0].id must be a non-empty string" ∈
      resMsgs (validateIndex [Json.arr []])) := by
  decide

/-- C1, amended: for every entry that is null or a scalar (not an
object and not an array), the validator emits exactly one violation -
that the entry must be an object - and performs no further checks on
it: the messages grow by exactly that one message, the identity set is
untouched (the duplicate check is skipped), and no exception can
arise. -/
theorem nonObjectEntry_single_violation (i : Nat) (e : Json) (st : VState)
    (h : passesObjectCheck e = false) :
    validateEntry i e st =
      Except.ok ⟨st.seen, st.msgs ++ [entryLabel i ++ " must be an object"]⟩ := by
  rw [validateEntry]
  simp [h, fail]

/-- Witness for the amended C1 theorem at the concrete entry null. -/
theorem nonObjectEntry_single_violation_witness :
    passesObjectCheck Json.null = false ∧
    validateEntry 0 Json.null ⟨[], []⟩ =
      Except.ok ⟨[], ["index.json[0] must be an object"]⟩ := by
  refine ⟨by decide, ?_⟩
  have h := nonObjectEntry_single_violation 0 Json.null ⟨[], []⟩ (by decide)
  rw [h]
  rfl


/-- C3, counterexample: the claim says the duplicate check runs
unconditionally for every entry of the array, even when the whole entry
was flagged as invalid.  The index consisting of two null entries
refutes it: both entries are flagged as non-objects and the loop
continues to the next entry (line 63) without computing a key, so the
identity set stays empty and the second null gets no duplicate
violation. -/
theorem nonObjectEntry_skips_duplicate_check :
    resMsgs (validateIndex [Json.null, Json.null]) =
      ["index.json[0] must be an object", "index.json[1] must be an object"] ∧
    ("index.json[1] duplicates id+version undefined@undefined" ∉
      resMsgs (validateIndex [Json.null, Json.null])) ∧
    resSeen (validateIndex [Json.null, Json.null]) = [] ∧
    seenAfter [Json.null, Json.null] [] = [] := by
  decide

/-- C3, amended: for every entry that passes the typeof-object guard
(objects and arrays), the duplicate check runs unconditionally: the
identity key is the coerced id value, an @ separator and the coerced
version value - computed and recorded even when earlier checks flagged
those fields or other fields as invalid (no validity hypothesis is
needed) - and a duplicate violation is emitted whenever that key was
already seen in the current run.  Entries failing the guard skip the
duplicate check entirely (see the counterexample). -/
theorem duplicate_check_on_object_entries (i : Nat) (e : Json) (st st2 : VState)
    (hp : passesObjectCheck e = true)
    (h : validateEntry i e st = Except.ok st2) :
    st2.seen = dupKey e :: st.seen ∧
    (dupKey e ∈ st.seen →
      (entryLabel i ++ " duplicates id+version " ++ dupKey e) ∈ st2.msgs) := by
  have hx := validateEntry_ok h
  subst hx
  refine ⟨by simp [updSeen, hp], ?_⟩
  intro hmem
  exact List.mem_append_right _ (mem_specDupViolation hp hmem)

/-- Witness for the amended C3 theorem: an empty object whose key
undefined@undefined is already in the identity set is flagged as a
duplicate, and its key is recorded again. -/
theorem duplicate_check_on_object_entries_witness :
    resSeen (validateEntry 1 (Json.obj []) ⟨["undefined@undefined"], []⟩) =
      ["undefined@undefined", "undefined@undefined"] ∧
    ("index.json[1] duplicates id+version undefined@undefined" ∈
      resMsgs (validateEntry 1 (Json.obj []) ⟨["undefined@undefined"], []⟩)) := by
  obtain ⟨st2, h⟩ :
      ∃ st2, validateEntry 1 (Json.obj []) ⟨["undefined@undefined"], []⟩ =
        Except.ok st2 := ⟨_, rfl⟩
  have hc := duplicate_check_on_object_entries 1 (Json.obj [])
    ⟨["undefined@undefined"], []⟩ st2 (by decide) h
  rw [h]
  exact ⟨hc.1, hc.2 (by decide)⟩

/-- C6: for every parsed top-level value that is not an array (an
object or a scalar), the run exits with the non-zero status 1 before
emitting any per-entry diagnostics: the error stream carries only the
top-level shape message (every per-entry diagnostic begins with the
entry label, and none is present). -/
theorem nonArray_top_level_fatal (j : Json) (h : ∀ es : List Json, j ≠ Json.arr es) :
    runValidator j =
      Except.ok ⟨1, ["index.json must be an array of entries"], []⟩ := by
  cases j with
  | arr es => exact absurd rfl (h es)
  | null => rfl
  | bool b => rfl
  | num n => rfl
  | str s => rfl
  | obj fs => rfl

/-- Witness for the C6 theorem at the concrete top-level value null. -/
theorem nonArray_top_level_fatal_witness :
    runValidator Json.null =
      Except.ok ⟨1, ["index.json must be an array of entries"], []⟩ :=
  nonArray_top_level_fatal Json.null (fun _ h => Json.noConfusion h)

/-- C7: the pack-validation wrapper invoked with no argument exits with
status 2 after printing the usage message to the error stream; invoked
with at least one argument it delegates to the external pack content
validator on the first argument and propagates that tool's exit
status. -/
theorem validatePackScript_behavior (corsairExit : String → Nat) :
    validatePackScript corsairExit [] = ⟨2, [validatePackUsage]⟩ ∧
    ∀ (a : String) (rest : List String),
      validatePackScript corsairExit (a :: rest) = ⟨corsairExit a, []⟩ :=
  ⟨rfl, fun _ _ => rfl⟩

/-- C10: appending further entries to an index never changes the
violation messages produced for the original entries: the message
sequence of the original index is a prefix of the message sequence of
the extended index (also when a run dies on an uncaught exception,
since the original messages were already printed).  Per-entry
validation depends only on the entry, its position and the identity set
accumulated from the earlier entries. -/
theorem violations_monotone_under_append (xs ys : List Json) :
    ∃ rest : List String,
      resMsgs (validateIndex (xs ++ ys)) = resMsgs (validateIndex xs) ++ rest := by
  rw [validateIndex, validateIndex]
  cases hx : validateFrom 0 xs ⟨[], []⟩ with
  | error st =>
    refine ⟨[], ?_⟩
    rw [validateFrom_append_error xs ys 0 _ _ hx]
    simp [resMsgs]
  | ok st =>
    obtain ⟨t, ht⟩ := resMsgs_validateFrom_mono ys (0 + xs.length) st
    refine ⟨t, ?_⟩
    rw [validateFrom_append_ok xs ys 0 _ _ hx, ht]
    simp [resMsgs]

/-- C2, counterexample: the claim says that for two entries with equal
id and version, changing either field so the (id, version) pairs differ
removes the duplicate violation.  The key is the plain concatenation
id @ version, which is not injective: starting from two copies of the
entry with id a@b and version c and changing the second to id a and
version b@c makes the pairs differ in both components, yet both keys
are the string a@b@c and the duplicate violation at position 1 is still
emitted. -/
theorem dupKey_collision_at_separator :
    coerceOrDefault (getField
      (Json.obj [("id", Json.str "a@b"), ("version", Json.str "c")]) "id") = "a@b" ∧
    coerceOrDefault (getField
      (Json.obj [("id", Json.str "a"), ("version", Json.str "b@c")]) "id") = "a" ∧
    coerceOrDefault (getField
      (Json.obj [("id", Json.str "a@b"), ("version", Json.str "c")]) "version") = "c" ∧
    coerceOrDefault (getField
      (Json.obj [("id", Json.str "a"), ("version", Json.str "b@c")]) "version") = "b@c" ∧
    ("index.json[1] duplicates id+version a@b@c" ∈
      resMsgs (validateIndex
        [Json.obj [("id", Json.str "a@b"), ("version", Json.str "c")],
         Json.obj [("id", Json.str "a"), ("version", Json.str "b@c")]])) := by
  decide

/-- C2, amended: (first part) for two entries passing the
typeof-object guard whose coerced id strings agree and whose coerced
version strings agree, the second occurrence produces a duplicate-key
violation at its position, provided the run completes without an
uncaught exception; (second part) when the concatenated key
id @ version of an entry is not in the identity set accumulated so far,
that entry's duplicate check emits nothing: the entry contributes
exactly its field-check violations.  Equality of the concatenated keys,
not of the (id, version) pairs, is the correct criterion (see the
counterexample). -/
theorem duplicate_detection_and_removal :
    (∀ (xs ys zs : List Json) (e1 e2 : Json) (st : VState),
      passesObjectCheck e1 = true → passesObjectCheck e2 = true →
      coerceOrDefault (getField e1 "id") = coerceOrDefault (getField e2 "id") →
      coerceOrDefault (getField e1 "version") = coerceOrDefault (getField e2 "version") →
      validateIndex (xs ++ e1 :: ys ++ e2 :: zs) = Except.ok st →
      (entryLabel (xs ++ e1 :: ys).length ++ " duplicates id+version " ++ dupKey e2)
        ∈ st.msgs) ∧
    (∀ (i : Nat) (e : Json) (st st2 : VState),
      passesObjectCheck e = true →
      st.seen.contains (dupKey e) = false →
      validateEntry i e st = Except.ok st2 →
      st2.msgs = st.msgs ++ specEntryViolationsCore i e) := by
  constructor
  · intro xs ys zs e1 e2 st h1 h2 hid hver hrun
    have hkey : dupKey e1 = dupKey e2 := by
      rw [dupKey, dupKey, hid, hver]
    exact dup_mem_of_matching_keys xs ys zs e1 e2 st h1 h2 hkey hrun
  · intro i e st st2 hp hc h
    have hnot : dupKey e ∉ st.seen := by simpa using hc
    have hx := validateEntry_ok h
    subst hx
    simp [specEntryViolations, hp, specDupViolation, hnot, vio]

/-- Witness for the amended C2 theorem: the first part applied to two
copies of the entry with id x and version 1, the second part applied to
an empty object against an identity set not containing its key. -/
theorem duplicate_detection_and_removal_witness :
    ("index.json[1] duplicates id+version x@1" ∈
      resMsgs (validateIndex
        [Json.obj [("id", Json.str "x"), ("version", Json.str "1")],
         Json.obj [("id", Json.str "x"), ("version", Json.str "1")]])) ∧
    resMsgs (validateEntry 0 (Json.obj []) ⟨["other@key"], []⟩) =
      [] ++ specEntryViolationsCore 0 (Json.obj []) := by
  constructor
  · obtain ⟨st, hst⟩ :
        ∃ st, validateIndex
          [Json.obj [("id", Json.str "x"), ("version", Json.str "1")],
           Json.obj [("id", Json.str "x"), ("version", Json.str "1")]] =
          Except.ok st := ⟨_, rfl⟩
    have h := duplicate_detection_and_removal.1 [] []
      [] (Json.obj [("id", Json.str "x"), ("version", Json.str "1")])
      (Json.obj [("id", Json.str "x"), ("version", Json.str "1")]) st
      rfl rfl rfl rfl hst
    rw [hst]
    exact h
  · obtain ⟨st2, h2⟩ :
        ∃ st2, validateEntry 0 (Json.obj []) ⟨["other@key"], []⟩ =
          Except.ok st2 := ⟨_, rfl⟩
    have h := duplicate_detection_and_removal.2 0 (Json.obj [])
      ⟨["other@key"], []⟩ st2 (by decide) (by decide) h2
    rw [h2]
    exact h

/-- C4: for every entry whose createdAt value is a string matching the
four-digits, hyphen, two-digits, hyphen, two-digits pattern but not
denoting a constructible calendar date, the validator emits a violation
naming createdAt, and a run that terminates normally exits with
status 1. -/
theorem createdAt_invalid_calendar_date_flagged
    (xs zs : List Json) (e : Json) (s : String) (r : RunResult)
    (hfield : getField e "createdAt" = some (Json.str s))
    (_hshape : isoShape s = true)
    (hdate : isoConstructible s = false)
    (hrun : runValidator (Json.arr (xs ++ e :: zs)) = Except.ok r) :
    (entryLabel xs.length ++ ".createdAt must be ISO date YYYY-MM-DD") ∈
      r.stderrMsgs ∧ r.exitCode = 1 := by
  have hp := passes_of_getField hfield
  have hiso : isIsoDate (getField e "createdAt") = false := by
    rw [hfield, isIsoDate]
    simp [hdate]
  obtain ⟨st, hv, hcases⟩ := runValidator_arr_ok hrun
  have hmem : (entryLabel xs.length ++ ".createdAt must be ISO date YYYY-MM-DD") ∈
      st.msgs :=
    spec_mem_validateIndex hv (mem_specCreatedAt hp hiso)
  rcases hcases with ⟨hnil, _⟩ | ⟨_, hr⟩
  · rw [hnil] at hmem
    exact absurd hmem (by simp)
  · subst hr
    exact ⟨List.mem_append_left _ hmem, rfl⟩

/-- Witness for the C4 theorem at the concrete entry whose createdAt is
2024-02-30, a string matching the pattern but not a calendar date. -/
theorem createdAt_invalid_calendar_date_flagged_witness :
    isoShape "2024-02-30" = true ∧
    isoConstructible "2024-02-30" = false ∧
    ("index.json[0].createdAt must be ISO date YYYY-MM-DD" ∈
      RunResult.stderrMsgs ⟨1,
        ["index.json[0].id must be a non-empty string",
         "index.json[0].tool must be a non-empty string",
         "index.json[0].version must be a non-empty string",
         "index.json[0].description must be a non-empty string",
         "index.json[0].signer must be a non-empty string",
         "index.json[0].frameworks must be a non-empty string array",
         "index.json[0].mappingIds must be a non-empty string array",
         "index.json[0].packUrl must be an https URL",
         "index.json[0].publicKeyUrl must be an https URL",
         "index.json[0].sha256 must be a 64-char hex string",
         "index.json[0].source must be one of: vendor, community, internal",
         "index.json[0].createdAt must be ISO date YYYY-MM-DD",
         "Index validation failed."], []⟩) ∧
    RunResult.exitCode ⟨1,
        ["index.json[0].id must be a non-empty string",
         "index.json[0].tool must be a non-empty string",
         "index.json[0].version must be a non-empty string",
         "index.json[0].description must be a non-empty string",
         "index.json[0].signer must be a non-empty string",
         "index.json[0].frameworks must be a non-empty string array",
         "index.json[0].mappingIds must be a non-empty string array",
         "index.json[0].packUrl must be an https URL",
         "index.json[0].publicKeyUrl must be an https URL",
         "index.json[0].sha256 must be a 64-char hex string",
         "index.json[0].source must be one of: vendor, community, internal",
         "index.json[0].createdAt must be ISO date YYYY-MM-DD",
         "Index validation failed."], []⟩ = 1 := by
  refine ⟨by decide, by decide, ?_⟩
  have hrun : runValidator (Json.arr
      ([] ++ Json.obj [("createdAt", Json.str "2024-02-30")] :: [])) =
      Except.ok ⟨1,
        ["index.json[0].id must be a non-empty string",
         "index.json[0].tool must be a non-empty string",
         "index.json[0].version must be a non-empty string",
         "index.json[0].description must be a non-empty string",
         "index.json[0].signer must be a non-empty string",
         "index.json[0].frameworks must be a non-empty string array",
         "index.json[0].mappingIds must be a non-empty string array",
         "index.json[0].packUrl must be an https URL",
         "index.json[0].publicKeyUrl must be an https URL",
         "index.json[0].sha256 must be a 64-char hex string",
         "index.json[0].source must be one of: vendor, community, internal",
         "index.json[0].createdAt must be ISO date YYYY-MM-DD",
         "Index validation failed."], []⟩ := rfl
  have h := createdAt_invalid_calendar_date_flagged [] []
    (Json.obj [("createdAt", Json.str "2024-02-30")]) "2024-02-30" _
    rfl (by decide) (by decide) hrun
  exact h

/-- C5: for every index whose run terminates normally, the violations
of all checks of all entries are accumulated and never discarded: the
error-stream output is exactly the specification-side list of
violations - in entry order and, within one entry, in field-check order
(the five required strings, frameworks, mappingIds, packUrl,
publicKeyUrl, sha256, source, createdAt, then the duplicate check; see
specEntryViolationsCore and specEntryViolations) - followed by the
summary line when any violation occurred. -/
theorem violations_complete_and_ordered (data : List Json) (r : RunResult)
    (h : runValidator (Json.arr data) = Except.ok r) :
    r.stderrMsgs =
      specViolationsFrom 0 data [] ++
        (if specViolationsFrom 0 data [] = [] then []
         else ["Index validation failed."]) := by
  obtain ⟨st, hv, hcases⟩ := runValidator_arr_ok h
  rw [validateIndex] at hv
  have hst := validateFrom_ok _ _ _ _ hv
  have hmsgs : st.msgs = specViolationsFrom 0 data [] := by
    rw [hst]
    simp
  rcases hcases with ⟨hnil, hr⟩ | ⟨hnil, hr⟩
  · subst hr
    rw [← hmsgs, hnil]
    simp
  · subst hr
    rw [← hmsgs, if_neg hnil]

/-- Witness for the C5 theorem at the index with one null entry. -/
theorem violations_complete_and_ordered_witness :
    runValidator (Json.arr [Json.null]) =
      Except.ok ⟨1, ["index.json[0] must be an object",
                     "Index validation failed."], []⟩ ∧
    RunResult.stderrMsgs ⟨1, ["index.json[0] must be an object",
                              "Index validation failed."], []⟩ =
      specViolationsFrom 0 [Json.null] [] ++
        (if specViolationsFrom 0 [Json.null] [] = [] then []
         else ["Index validation failed."]) :=
  ⟨rfl, violations_complete_and_ordered [Json.null] _ rfl⟩

/-- C8, counterexample: the claim says the validation pass completes
without an uncaught exception on every parsed JSON value, the source
coercion being total.  It is not: an entry whose source value is an
object with an own toString property makes the String() coercion on
line 94 throw a TypeError (OrdinaryToPrimitive finds no callable
method), so the run dies after printing the ten field violations
already discovered and never reaches the exit-status logic. -/
theorem coercion_throws_on_toString_field :
    jsToString (Json.obj [("toString", Json.num 1)]) = none ∧
    runValidator (Json.arr [Json.obj [("source",
        Json.obj [("toString", Json.num 1)])]]) =
      Except.error ⟨[],
        ["index.json[0].id must be a non-empty string",
         "index.json[0].tool must be a non-empty string",
         "index.json[0].version must be a non-empty string",
         "index.json[0].description must be a non-empty string",
         "index.json[0].signer must be a non-empty string",
         "index.json[0].frameworks must be a non-empty string array",
         "index.json[0].mappingIds must be a non-empty string array",
         "index.json[0].packUrl must be an https URL",
         "index.json[0].publicKeyUrl must be an https URL",
         "index.json[0].sha256 must be a 64-char hex string"]⟩ :=
  ⟨rfl, rfl⟩

/-- C8, amended: (first part) for every parsed array whose entries all
have coercible source, id and version values (in particular whenever no
coerced value is an object owning a toString property), the validation
pass completes without an uncaught exception; (second part) every run
that terminates normally exits with status exactly 0 or 1 - also for
non-array inputs - every field check being total (URL parse failures
are caught and reported as violations). -/
theorem run_total_and_exit_code_when_coercible :
    (∀ data : List Json, data.all entryCoercible = true →
      completesNormally (runValidator (Json.arr data)) = true) ∧
    (∀ (j : Json) (r : RunResult), runValidator j = Except.ok r →
      r.exitCode = 0 ∨ r.exitCode = 1) := by
  constructor
  · intro data hall
    obtain ⟨st, hst⟩ := validateFrom_ok_of_coercible data 0 ⟨[], []⟩ hall
    have hv : validateIndex data = Except.ok st := hst
    simp only [runValidator, hv]
    by_cases hm : st.msgs.isEmpty
    · rw [if_pos hm]; rfl
    · rw [if_neg hm]; rfl
  · intro j r h
    cases j with
    | arr entries =>
      obtain ⟨st, _, hcases⟩ := runValidator_arr_ok h
      rcases hcases with ⟨_, hr⟩ | ⟨_, hr⟩
      · subst hr; exact Or.inl rfl
      · subst hr; exact Or.inr rfl
    | null => simp only [runValidator, Except.ok.injEq] at h; subst h; exact Or.inr rfl
    | bool b => simp only [runValidator, Except.ok.injEq] at h; subst h; exact Or.inr rfl
    | num n => simp only [runValidator, Except.ok.injEq] at h; subst h; exact Or.inr rfl
    | str s => simp only [runValidator, Except.ok.injEq] at h; subst h; exact Or.inr rfl
    | obj fs => simp only [runValidator, Except.ok.injEq] at h; subst h; exact Or.inr rfl

/-- Witness for the amended C8 theorem: one coercible entry completes
normally, and the exit status of the run on the non-array input null is
0 or 1. -/
theorem run_total_and_exit_code_when_coercible_witness :
    List.all [Json.obj []] entryCoercible = true ∧
    completesNormally (runValidator (Json.arr [Json.obj []])) = true ∧
    (RunResult.exitCode ⟨1, ["index.json must be an array of entries"], []⟩ = 0 ∨
     RunResult.exitCode ⟨1, ["index.json must be an array of entries"], []⟩ = 1) := by
  refine ⟨by decide, ?_, ?_⟩
  · exact run_total_and_exit_code_when_coercible.1 [Json.obj []] (by decide)
  · exact run_total_and_exit_code_when_coercible.2 Json.null
      ⟨1, ["index.json must be an array of entries"], []⟩ rfl

/-- C9: for every index containing two entries that are objects whose
id and version fields are both absent, the second such entry produces a
duplicate-key violation for the key undefined@undefined (the absent
fields coerce to the string undefined), even though neither entry has a
valid identity - provided the run terminates normally. -/
theorem missing_identity_duplicate_flagged
    (xs ys zs : List Json) (f1 f2 : List (String × Json)) (st : VState)
    (h1 : lookupField f1 "id" = none) (h2 : lookupField f1 "version" = none)
    (h3 : lookupField f2 "id" = none) (h4 : lookupField f2 "version" = none)
    (hrun : validateIndex (xs ++ Json.obj f1 :: ys ++ Json.obj f2 :: zs) =
      Except.ok st) :
    (entryLabel (xs ++ Json.obj f1 :: ys).length ++
      " duplicates id+version " ++ "undefined@undefined") ∈ st.msgs := by
  have hk1 : dupKey (Json.obj f1) = "undefined@undefined" := by
    rw [dupKey]
    simp [coerceOrDefault, getField, h1, h2, jsFieldToString]
  have hk2 : dupKey (Json.obj f2) = "undefined@undefined" := by
    rw [dupKey]
    simp [coerceOrDefault, getField, h3, h4, jsFieldToString]
  have h := dup_mem_of_matching_keys xs ys zs (Json.obj f1) (Json.obj f2) st
    rfl rfl (hk1.trans hk2.symm) hrun
  rw [hk2] at h
  exact h

/-- Witness for the C9 theorem at the index of two empty objects. -/
theorem missing_identity_duplicate_flagged_witness :
    ("index.json[1] duplicates id+version undefined@undefined" ∈
      resMsgs (validateIndex [Json.obj [], Json.obj []])) := by
  obtain ⟨st, hst⟩ :
      ∃ st, validateIndex [Json.obj [], Json.obj []] = Except.ok st := ⟨_, rfl⟩
  have h := missing_identity_duplicate_flagged [] [] [] [] [] st
    rfl rfl rfl rfl hst
  rw [hst]
  exact h

end Mappings
